import Mathlib

/-!
Formal model of the LandSync matching and reconciliation engine
(src/backend/app/matching/engine.py together with the classification and
verification endpoints of src/backend/app/api/reconcile.py and the request
schema of src/backend/app/schemas/schemas.py).

Python strings are modelled as lists of Unicode code points (`Str`), Python
floats as exact rationals; every quantity exercised by a claim is far from a
binary-representation or rounding tie, so the rational model agrees with the
float computation there.
-/

attribute [local semireducible] Rat.mul Rat.inv Rat.add Rat.sub Rat.ofScientific

namespace LandSync

/-- A Python string, modelled as the list of its Unicode code points. -/
abbrev Str : Type := List Nat

/-- Code points of a Lean string literal. -/
def pyStr (s : String) : Str := s.toList.map (fun c => c.toNat)

/-- Python whitespace as used by str.split, str.strip and the regex class \s
(ASCII part; no repository datum carries non-ASCII whitespace). -/
def isWsM (c : Nat) : Bool := c == 32 || c == 9 || c == 10 || c == 13 || c == 11 || c == 12

/-- ASCII digit, as tested by str.isdigit on the code points exercised here. -/
def isDigitM (c : Nat) : Bool := 48 ≤ c && c ≤ 57

/-- The separators removed by _normalize_id: hyphen, slash, backslash, dot. -/
def isSepM (c : Nat) : Bool := c == 45 || c == 47 || c == 92 || c == 46

/-- Python str.lower on ASCII letters; the Devanagari block has no case. -/
def toLowerM (c : Nat) : Nat := if 65 ≤ c ∧ c ≤ 90 then c + 32 else c

/-- A character kept by the re.sub of _normalize_name, whose class removes
everything that is neither a word character (\w), whitespace (\s) nor inside
U+0900..U+097F: ASCII alphanumerics, underscore, whitespace and Devanagari.
(Unicode word characters outside these ranges do not occur in the data the
claims exercise.) -/
def isKeptM (c : Nat) : Bool :=
  isDigitM c || (97 ≤ c && c ≤ 122) || (65 ≤ c && c ≤ 90) || c == 95 ||
    (2304 ≤ c && c ≤ 2431) || isWsM c

/-- Python str.strip: drop whitespace from both ends. -/
def stripM (s : Str) : Str := ((s.dropWhile isWsM).reverse.dropWhile isWsM).reverse

/-- Replace each maximal whitespace run by one blank (the re.sub of \s+ in
_normalize_name); the flag records whether the previous character was
whitespace. -/
def squeezeAux : Bool → Str → Str
  | _, [] => []
  | inRun, c :: rest =>
    if isWsM c then (if inRun then squeezeAux true rest else 32 :: squeezeAux true rest)
    else c :: squeezeAux false rest

/-- re.sub replacing each whitespace run with a single blank. -/
def squeezeWs (s : Str) : Str := squeezeAux false s

/-- Python str.split() with no argument: split on whitespace runs, producing
no empty tokens; acc holds the token being built, reversed. -/
def splitAux : Str → Str → List Str
  | [], acc => if acc.isEmpty then [] else [acc.reverse]
  | c :: rest, acc =>
    if isWsM c then (if acc.isEmpty then splitAux rest [] else acc.reverse :: splitAux rest [])
    else splitAux rest (c :: acc)

/-- Python str.split() with no argument. -/
def splitWsM (s : Str) : List Str := splitAux s []

/-- str(int(t)) for an all-digit token t: strip leading zeros, keeping "0"
when every digit was zero. -/
def stripZeros (t : Str) : Str :=
  match t.dropWhile (· == 48) with
  | [] => [48]
  | r => r

/-- Python str.isdigit (false on the empty string). -/
def pyIsDigit (t : Str) : Bool := !t.isEmpty && t.all isDigitM

/-- The honorific prefixes stripped by _normalize_name, in source order. -/
def honorifics : List Str :=
  [pyStr "shri", pyStr "smt", pyStr "mr", pyStr "mrs", pyStr "ms", pyStr "dr",
   pyStr "prof", pyStr "sh", pyStr "श्री", pyStr "श्रीमती"]

/-- MatchingEngine._normalize_name (engine.py 239-260): lower-case and strip,
drop each listed honorific when followed by a blank, remove characters outside
\w, \s and Devanagari, and collapse whitespace runs. -/
def normalize_name (s : Str) : Str :=
  let lowered := stripM (s.map toLowerM)
  let unprefixed := honorifics.foldl
    (fun n p => if (p ++ [32]).isPrefixOf n then n.drop (p.length + 1) else n) lowered
  let cleaned := unprefixed.filter isKeptM
  stripM (squeezeWs cleaned)

/-- MatchingEngine._normalize_id (engine.py 262-283): lower-case and strip,
remove the separators - / \ ., split on whitespace, strip leading zeros from
all-digit tokens, and concatenate. -/
def normalize_id (s : Str) : Str :=
  let lowered := stripM (s.map toLowerM)
  let unseparated := lowered.filter (fun c => !isSepM c)
  let parts := splitWsM unseparated
  (parts.map (fun t => if pyIsDigit t then stripZeros t else t)).flatten

/-- Length of a longest common subsequence, by structural recursion on a fuel
bound (any fuel of at least l1 + l2 gives the true value). -/
def lcsAux : Nat → Str → Str → Nat
  | 0, _, _ => 0
  | _ + 1, [], _ => 0
  | _ + 1, _ :: _, [] => 0
  | fuel + 1, a :: as, b :: bs =>
    if a = b then lcsAux fuel as bs + 1
    else max (lcsAux fuel (a :: as) bs) (lcsAux fuel as (b :: bs))

/-- Length of a longest common subsequence. -/
def lcsLen (s1 s2 : Str) : Nat := lcsAux (s1.length + s2.length) s1 s2

/-- The InDel (insertion/deletion only) edit distance, which equals
l1 + l2 − 2·lcs. -/
def indelDist (s1 s2 : Str) : ℤ := s1.length + s2.length - 2 * lcsLen s1 s2

/-- Modelled from the spec: rapidfuzz fuzz.ratio (library code, not under
src/), the normalized InDel similarity 100·(1 − dist/(l1+l2)); 100 when both
strings are empty. -/
def fuzz_ratio (s1 s2 : Str) : ℚ :=
  if s1.length + s2.length = 0 then 100
  else
    100 * (((s1.length + s2.length : ℤ) - indelDist s1 s2 : ℤ) : ℚ) /
      ((s1.length + s2.length : ℕ) : ℚ)

/-- All nonempty contiguous substrings. -/
def contiguousSubs (l : Str) : List Str :=
  (List.range (l.length + 1)).flatMap
    (fun i => (List.range (l.length - i)).map (fun n => (l.drop i).take (n + 1)))

/-- Modelled from the spec: rapidfuzz fuzz.partial_ratio (library code, not
under src/), the best fuzz.ratio between the shorter string and a contiguous
substring of the longer. -/
def fuzz_partial_ratio (s1 s2 : Str) : ℚ :=
  if s1 = [] ∨ s2 = [] then (if s1 = [] ∧ s2 = [] then 100 else 0)
  else
    let a := if s1.length ≤ s2.length then s1 else s2
    let b := if s1.length ≤ s2.length then s2 else s1
    ((contiguousSubs b).map (fun w => fuzz_ratio a w)).foldl max 0

/-- Lexicographic order on code-point lists (Python string comparison). -/
def lexLe : Str → Str → Bool
  | [], _ => true
  | _ :: _, [] => false
  | a :: as, b :: bs => if a < b then true else if b < a then false else lexLe as bs

/-- Insert into a lexicographically sorted token list. -/
def insertTok (t : Str) : List Str → List Str
  | [] => [t]
  | u :: us => if lexLe t u then t :: u :: us else u :: insertTok t us

/-- Insertion sort of tokens (Python sorted on strings). -/
def sortToks : List Str → List Str
  | [] => []
  | t :: ts => insertTok t (sortToks ts)

/-- Join tokens with single blanks. -/
def joinBlank (ts : List Str) : Str := List.intercalate [32] ts

/-- Modelled from the spec: rapidfuzz fuzz.token_sort_ratio (library code, not
under src/): fuzz.ratio of the blank-joined sorted token lists. -/
def fuzz_token_sort_ratio (s1 s2 : Str) : ℚ :=
  fuzz_ratio (joinBlank (sortToks (splitWsM s1))) (joinBlank (sortToks (splitWsM s2)))

/-- Modelled from the spec: rapidfuzz fuzz.token_set_ratio (library code, not
under src/): the best ratio among the sorted token intersection and each side's
full sorted token set. -/
def fuzz_token_set_ratio (s1 s2 : Str) : ℚ :=
  let t1 := sortToks (splitWsM s1).dedup
  let t2 := sortToks (splitWsM s2).dedup
  let inter := t1.filter (fun t => t2.contains t)
  let d1 := t1.filter (fun t => !t2.contains t)
  let d2 := t2.filter (fun t => !t1.contains t)
  max (fuzz_ratio (joinBlank inter) (joinBlank (inter ++ d1)))
    (max (fuzz_ratio (joinBlank inter) (joinBlank (inter ++ d2)))
      (fuzz_ratio (joinBlank (inter ++ d1)) (joinBlank (inter ++ d2))))

/-- Insert into a sorted list of naturals. -/
def insertNat (j : Nat) : List Nat → List Nat
  | [] => [j]
  | k :: ks => if j ≤ k then j :: k :: ks else k :: insertNat j ks

/-- Insertion sort on naturals. -/
def sortNat : List Nat → List Nat
  | [] => []
  | j :: js => insertNat j (sortNat js)

/-- Modelled from the spec: one Jaro matching step — try to match character c
of the first string (at index i) against a not-yet-matched character of s2
within the window; the state is the match mask over s2 and the matched s2
indices in first-string order. -/
def jaroStep (s2 : Str) (w : Nat) (acc : List Bool × List Nat) (ic : Nat × Nat) :
    List Bool × List Nat :=
  let i := ic.1
  let c := ic.2
  match (List.range s2.length).find?
      (fun j => decide (i - w ≤ j) && decide (j ≤ i + w) && (s2.getD j 0 == c)
        && !(acc.1.getD j true)) with
  | some j => (acc.1.set j true, acc.2 ++ [j])
  | none => acc

/-- Modelled from the spec: the Jaro similarity (in [0,1]) of two strings. -/
def jaroSim (s1 s2 : Str) : ℚ :=
  if s1 = [] ∧ s2 = [] then 1
  else if s1 = [] ∨ s2 = [] then 0
  else
    let w := max s1.length s2.length / 2 - 1
    let res := s1.enum.foldl (jaroStep s2 w) (List.replicate s2.length false, [])
    let js := res.2
    let m : ℚ := js.length
    if js.length = 0 then 0
    else
      let sorted := sortNat js
      let trans2 : ℚ :=
        ((js.zip sorted).filter (fun p => !(s2.getD p.1 0 == s2.getD p.2 0))).length
      let t := trans2 / 2
      (m / s1.length + m / s2.length + (m - t) / m) / 3

/-- Modelled from the spec: rapidfuzz JaroWinkler.normalized_similarity
(library code, not under src/), scaled ×100 by _jaro_winkler_score
(engine.py 208-215). No claim exercises the jaro_winkler algorithm. -/
def jaro_winkler_score (s1 s2 : Str) : ℚ :=
  if s1 = [] ∨ s2 = [] then 0
  else
    let j := jaroSim s1 s2
    let lp : ℚ := min 4 ((s1.zip s2).takeWhile (fun p => p.1 == p.2)).length
    let jw := if 7/10 < j then j + lp * (1/10) * (1 - j) else j
    jw * 100

/-- MatchingEngine._cosine_score (engine.py 217-237). The real-valued
math.sqrt is modelled with Nat.sqrt (exact precisely on perfect squares); no
claim exercises the cosine algorithm. -/
def cosine_score (s1 s2 : Str) : ℚ :=
  if s1 = [] ∨ s2 = [] then 0
  else
    let t1 := (splitWsM (s1.map toLowerM)).dedup
    let t2 := (splitWsM (s2.map toLowerM)).dedup
    if t1.isEmpty || t2.isEmpty then 0
    else
      let inter := t1.filter (fun t => t2.contains t)
      if inter.isEmpty then 0
      else (inter.length : ℚ) / (Nat.sqrt (t1.length * t2.length) : ℚ) * 100

/-- MatchingEngine._calculate_name_score (engine.py 151-169). -/
def calculate_name_score (name1 name2 : Str) : ℚ :=
  if name1 = [] ∨ name2 = [] then 0
  else if name1 = name2 then 100
  else
    fuzz_ratio name1 name2 * 0.25 + fuzz_partial_ratio name1 name2 * 0.25 +
      fuzz_token_sort_ratio name1 name2 * 0.25 + fuzz_token_set_ratio name1 name2 * 0.25

/-- MatchingEngine._calculate_id_score (engine.py 171-181). -/
def calculate_id_score (id1 id2 : Str) : ℚ :=
  if id1 = [] ∨ id2 = [] then 0
  else if id1 = id2 then 100
  else fuzz_ratio id1 id2

/-- MatchingEngine._calculate_area_score (engine.py 183-206), verbatim
including its behaviour on zero, equal and (out-of-intended-domain) negative
areas. -/
def calculate_area_score (area_tolerance area1 area2 : ℚ) : ℚ :=
  if area1 = 0 ∨ area2 = 0 then 0
  else if area1 = area2 then 100
  else
    let diff_percent := |area1 - area2| / max area1 area2 * 100
    if diff_percent ≤ area_tolerance then 100 - diff_percent / area_tolerance * 20
    else if diff_percent ≤ area_tolerance * 2 then
      80 - (diff_percent - area_tolerance) / area_tolerance * 30
    else if diff_percent ≤ area_tolerance * 5 then
      50 - (diff_percent - area_tolerance * 2) / (area_tolerance * 3) * 30
    else max 0 (20 - (diff_percent - area_tolerance * 5) / 10)

/-- One flat parcel or textual-record dictionary as consumed by run_matching
(keys id, plot_id, owner_name, area). -/
structure Row where
  id : Nat
  plot_id : Str
  owner_name : Str
  area : ℚ
deriving DecidableEq

/-- The MatchingEngine configuration (engine.py 28-44). -/
structure MatchingEngine where
  algorithm : Str
  area_tolerance : ℚ
  name_threshold : ℚ
deriving DecidableEq

/-- Engine with the default configuration (combined, 5.0, 70.0). -/
def defaultEngine : MatchingEngine := ⟨pyStr "combined", 5, 70⟩

/-- The four scores returned by _calculate_match. -/
structure MatchScores where
  name_score : ℚ
  area_score : ℚ
  id_score : ℚ
  total_score : ℚ
deriving DecidableEq

/-- WEIGHTS of the combined algorithm (engine.py 22-26). -/
def WEIGHT_NAME : ℚ := 0.40

/-- Area weight of the combined algorithm. -/
def WEIGHT_AREA : ℚ := 0.30

/-- Plot-id weight of the combined algorithm. -/
def WEIGHT_ID : ℚ := 0.30

/-- MatchingEngine._calculate_match (engine.py 108-149). -/
def calculate_match (e : MatchingEngine) (parcel record : Row) : MatchScores :=
  let parcel_name := normalize_name parcel.owner_name
  let record_name := normalize_name record.owner_name
  let parcel_id := normalize_id parcel.plot_id
  let record_id := normalize_id record.plot_id
  let name_score := calculate_name_score parcel_name record_name
  let id_score := calculate_id_score parcel_id record_id
  let area_score := calculate_area_score e.area_tolerance parcel.area record.area
  let total_score :=
    if e.algorithm = pyStr "levenshtein" then name_score
    else if e.algorithm = pyStr "jaro_winkler" then jaro_winkler_score parcel_name record_name
    else if e.algorithm = pyStr "cosine" then cosine_score parcel_name record_name
    else WEIGHT_NAME * name_score + WEIGHT_AREA * area_score + WEIGHT_ID * id_score
  ⟨name_score, area_score, id_score, total_score⟩

/-- Python round to an integer, half to even (banker's rounding), on exact
rationals. -/
def roundHalfEven (x : ℚ) : ℤ :=
  let f := ⌊x⌋
  if x - f < 1/2 then f
  else if (1/2 : ℚ) < x - f then f + 1
  else if f % 2 = 0 then f else f + 1

/-- Python round(x, 2). -/
def round2 (x : ℚ) : ℚ := (roundHalfEven (x * 100) : ℚ) / 100

/-- One element of run_matching's returned list (engine.py 97-104). -/
structure Candidate where
  parcel_id : Nat
  record_id : Nat
  total_score : ℚ
  name_score : ℚ
  area_score : ℚ
  id_score : ℚ
deriving DecidableEq

/-- The body of run_matching's per-record loop: keep a strictly better
match, tracking (best_match, best_score). -/
def bestFold (e : MatchingEngine) (parcel : Row) (acc : Option (Row × MatchScores) × ℚ)
    (records : List Row) : Option (Row × MatchScores) × ℚ :=
  records.foldl (fun acc record =>
    let m := calculate_match e parcel record
    if acc.2 < m.total_score then (some (record, m), m.total_score) else acc) acc

/-- The bucket of the plot-id index (engine.py 63-69) for one parcel: a Python
dict preserves insertion order, so the records stored under the parcel's
normalized plot id are exactly the records whose normalized plot id equals it,
in input order. -/
def bucketOf (parcel : Row) (records : List Row) : List Row :=
  records.filter (fun r => normalize_id r.plot_id == normalize_id parcel.plot_id)

/-- The loop state of run_matching's parcel iteration (engine.py 77-94): the
first pass runs over the index bucket when the parcel's normalized plot id is
indexed, then — when nothing was found or the best score is below 80 — a
second pass runs over every record, starting from the first pass's state. -/
def finalAcc (e : MatchingEngine) (parcel : Row) (records : List Row) :
    Option (Row × MatchScores) × ℚ :=
  let bucket := bucketOf parcel records
  let first :=
    if bucket.isEmpty then ((none : Option (Row × MatchScores)), (0 : ℚ))
    else bestFold e parcel (none, 0) bucket
  if first.1.isNone || decide (first.2 < 80) then bestFold e parcel first records else first

/-- One iteration of run_matching's parcel loop (engine.py 72-104): emit the
best match found across the two passes, if any. -/
def matchParcel (e : MatchingEngine) (parcel : Row) (records : List Row) : Option Candidate :=
  match finalAcc e parcel records with
  | (none, _) => none
  | (some (record, m), best_score) =>
    some ⟨parcel.id, record.id, round2 best_score, round2 m.name_score, round2 m.area_score,
      round2 m.id_score⟩

/-- MatchingEngine.run_matching (engine.py 46-106). -/
def run_matching (e : MatchingEngine) (parcels records : List Row) : List Candidate :=
  parcels.filterMap (fun parcel => matchParcel e parcel records)

/-- Match status values (models.py MatchStatus / schemas.py MatchStatusEnum). -/
inductive MatchStatusM where
  | matched
  | partialMatch
  | mismatch
  | pending
  | verified
  | rejected
deriving DecidableEq

/-- Confidence levels (models.py ConfidenceLevel). -/
inductive ConfidenceLevelM where
  | high
  | medium
  | low
deriving DecidableEq

/-- The status/confidence classification applied to each produced score by
run_reconciliation (reconcile.py 96-110). -/
def classify (score : ℚ) : MatchStatusM × ConfidenceLevelM :=
  if 80 ≤ score then (.matched, .high)
  else if 50 ≤ score then (.partialMatch, .medium)
  else (.mismatch, .low)

/-- Pydantic validation of MatchVerifyRequest.status against MatchStatusEnum
(schemas.py 206-208, 14-20): a request whose status value is not a member of
the enum is rejected before the handler runs. -/
def parseMatchStatus (s : Str) : Option MatchStatusM :=
  if s = pyStr "matched" then some .matched
  else if s = pyStr "partial" then some .partialMatch
  else if s = pyStr "mismatch" then some .mismatch
  else if s = pyStr "pending" then some .pending
  else if s = pyStr "verified" then some .verified
  else if s = pyStr "rejected" then some .rejected
  else none

/-- The persisted Match fields touched by the verification endpoint. -/
structure MatchM where
  status : MatchStatusM
  verified_by : Option Nat
  verified_at : Option Nat
  rejection_reason : Option Str
deriving DecidableEq

/-- Outcome of a verification request. -/
inductive VerifyOutcome where
  | validationError
  | ok (m : MatchM)
deriving DecidableEq

/-- verify_match (reconcile.py 252-294): after request validation the handler
overwrites status, verifier and timestamp unconditionally — there is no check
against the current status; a falsy (absent or empty) rejection_reason leaves
the stored reason unchanged. -/
def verify_match (m : MatchM) (reqStatus : Str) (reqReason : Option Str) (actor now : Nat) :
    VerifyOutcome :=
  match parseMatchStatus reqStatus with
  | none => .validationError
  | some st =>
    .ok { status := st, verified_by := some actor, verified_at := some now,
          rejection_reason :=
            match reqReason with
            | some r => if r.isEmpty then m.rejection_reason else some r
            | none => m.rejection_reason }

/-- The percent difference used by _calculate_area_score. -/
def pctDiff (a1 a2 : ℚ) : ℚ := |a1 - a2| / max a1 a2 * 100

/-- The piecewise decay of _calculate_area_score as a function of the percent
difference, for fixed tolerance. -/
def areaScoreOfDiff (tol d : ℚ) : ℚ :=
  if d ≤ tol then 100 - d / tol * 20
  else if d ≤ tol * 2 then 80 - (d - tol) / tol * 30
  else if d ≤ tol * 5 then 50 - (d - tol * 2) / (tol * 3) * 30
  else max 0 (20 - (d - tol * 5) / 10)

/-- The total score of one parcel/record pair. -/
def totalOf (e : MatchingEngine) (p r : Row) : ℚ := (calculate_match e p r).total_score

/-- The running maximum of total scores tracked by run_matching's loop. -/
def bestScoreOver (e : MatchingEngine) (p : Row) (init : ℚ) (rs : List Row) : ℚ :=
  rs.foldl (fun s r => max s (totalOf e p r)) init

/-- Loop-state invariant: the score is nonnegative, zero while no match is
held, and any held match is the scored record, with positive total equal to
the tracked score, drawn from S. -/
def GoodAcc (e : MatchingEngine) (p : Row) (S : List Row)
    (acc : Option (Row × MatchScores) × ℚ) : Prop :=
  0 ≤ acc.2 ∧ (acc.1 = none → acc.2 = 0) ∧
    ∀ r m, acc.1 = some (r, m) →
      m = calculate_match e p r ∧ m.total_score = acc.2 ∧ 0 < acc.2 ∧ r ∈ S

/-- The parcel of the rounding counterexample: plot id "x", no owner, area 0. -/
def parcelC10 : Row := ⟨1, [120], [], 0⟩

/-- The record of the rounding counterexample: plot id "x" followed by 12000
copies of "y", no owner, area 0. -/
def recordC10 : Row := ⟨2, 120 :: List.replicate 12000 121, [], 0⟩

/-- The candidate actually emitted for that pair: total_score rounds to 0.0
although the underlying best score 30/6001 is strictly positive. -/
def candidateC10 : Candidate := ⟨1, 2, 0, 0, 0, 1/50⟩

/-- The parcel of the spec's worked scenario. -/
def parcelC2 : Row := ⟨1, pyStr "P-007", pyStr "Ramesh Kumar", 2500⟩

/-- The textual record of the spec's worked scenario. -/
def recordC2 : Row := ⟨2, pyStr "p7", pyStr "ramesh kumar", 2550⟩

/-- Claim C1, counterexample: verifying a match already in the terminal state
rejected with target verified does not fail — verify_match succeeds and
overwrites the status with verified (the handler has no terminal-state
check), contradicting the claim that the call fails with InvalidTransition
and the match retains rejected. -/
theorem C1_counterexample :
    verify_match ⟨.rejected, some 5, some 1, some (pyStr "bad")⟩ (pyStr "verified") none 7 2 =
      .ok ⟨.verified, some 7, some 2, some (pyStr "bad")⟩ ∧
    MatchStatusM.verified ≠ MatchStatusM.rejected := by decide

/-- Claim C1 (amended): verify_match performs no terminal-state check — a
verification request whose target status is a recognized MatchStatus member
succeeds on any match, whatever its current status (in particular on verified
or rejected matches), overwriting status, verifier and timestamp; only a
request carrying an unrecognized target status is rejected synchronously by
schema validation, leaving the match unchanged. -/
theorem C1_verify_no_terminal_check (m : MatchM) (s : Str) (r : Option Str) (a t : Nat) :
    (parseMatchStatus s = none → verify_match m s r a t = .validationError) ∧
    (∀ st, parseMatchStatus s = some st →
      verify_match m s r a t =
        .ok ⟨st, some a, some t,
          match r with
          | some rr => if rr.isEmpty then m.rejection_reason else some rr
          | none => m.rejection_reason⟩) := by
  constructor
  · intro h
    simp [verify_match, h]
  · intro st h
    simp [verify_match, h]

/-- Witness for C1: a request with the unrecognized status "bogus" is rejected
by validation. -/
theorem C1_witness :
    verify_match ⟨.rejected, some 5, some 1, none⟩ (pyStr "bogus") none 7 2 =
      .validationError :=
  (C1_verify_no_terminal_check ⟨.rejected, some 5, some 1, none⟩ (pyStr "bogus") none 7 2).1
    (by decide)

/-- Claim C2, counterexample: "P-007" does not normalize to "p7" — leading
zeros are only stripped from all-digit tokens and "p007" is a single token
containing a letter — so the id score of the spec's scenario is
fuzz.ratio("p007","p7") = 200/3, not 100. -/
theorem C2_counterexample :
    normalize_id (pyStr "P-007") = pyStr "p007" ∧
    normalize_id (pyStr "P-007") ≠ pyStr "p7" ∧
    (calculate_match defaultEngine parcelC2 recordC2).id_score = 200/3 ∧
    (calculate_match defaultEngine parcelC2 recordC2).id_score ≠ 100 := by decide

/-- Claim C2 (amended): for the spec's scenario parcel
{plot_id:"P-007", owner:"Ramesh Kumar", area:2500} against record
{plot_id:"p7", owner:"ramesh kumar", area:2550} under combined with
tolerance 5: the parcel identifier normalizes to "p007" (not "p7"), giving
id_score 66.67, name_score 100, area_score 92.16 and total 87.65 — still
classified matched with confidence high. -/
theorem C2_scenario_actual :
    run_matching defaultEngine [parcelC2] [recordC2] = [⟨1, 2, 87.65, 100, 92.16, 66.67⟩] ∧
    classify 87.65 = (.matched, .high) ∧
    calculate_area_score 5 2500 2550 = 4700/51 ∧ round2 (4700/51) = 92.16 := by decide

/-- Claim C5: the classification of run_reconciliation sends every score ≥ 80
to matched/high, every score in [50,80) to partial/medium and every score
below 50 to mismatch/low; in particular 80 → matched, 79.99 → partial,
50 → partial and 49.99 → mismatch. -/
theorem C5_classification_boundaries :
    (∀ s : ℚ, 80 ≤ s → classify s = (.matched, .high)) ∧
    (∀ s : ℚ, 50 ≤ s → s < 80 → classify s = (.partialMatch, .medium)) ∧
    (∀ s : ℚ, s < 50 → classify s = (.mismatch, .low)) ∧
    classify 80 = (.matched, .high) ∧
    classify 79.99 = (.partialMatch, .medium) ∧
    classify 50 = (.partialMatch, .medium) ∧
    classify 49.99 = (.mismatch, .low) := by
  refine ⟨?_, ?_, ?_, by decide, by decide, by decide, by decide⟩
  · intro s h
    simp [classify, h]
  · intro s h1 h2
    unfold classify
    rw [if_neg (by linarith), if_pos h1]
  · intro s h
    unfold classify
    rw [if_neg (by linarith), if_neg (by linarith)]

/-- Witness for C5: a score of 93 is classified matched/high. -/
theorem C5_witness : classify 93 = (.matched, .high) :=
  C5_classification_boundaries.1 93 (by norm_num)

/-- Claim C9: the code does not treat a negative (malformed) area as absent —
_calculate_area_score computes with it: two negative areas give a percent
difference of −100 and a score of 500 (far outside the documented 0-100
range), and a single negative area gives 12.1 rather than 0. -/
theorem C9_negative_area_not_absent :
    calculate_area_score 5 (-10) (-20) = 500 ∧
    ¬ calculate_area_score 5 (-10) (-20) ≤ 100 ∧
    calculate_area_score 5 2500 (-100) = 12.1 ∧
    calculate_area_score 5 2500 (-100) ≠ 0 := by decide

/-- Branch evaluation: within tolerance. -/
lemma areaScoreOfDiff_eq1 (tol d : ℚ) (h : d ≤ tol) :
    areaScoreOfDiff tol d = 100 - d / tol * 20 := by
  unfold areaScoreOfDiff
  rw [if_pos h]

/-- Branch evaluation: up to twice the tolerance. -/
lemma areaScoreOfDiff_eq2 (tol d : ℚ) (h1 : tol < d) (h2 : d ≤ tol * 2) :
    areaScoreOfDiff tol d = 80 - (d - tol) / tol * 30 := by
  unfold areaScoreOfDiff
  rw [if_neg (not_le.mpr h1), if_pos h2]

/-- Branch evaluation: up to five times the tolerance. -/
lemma areaScoreOfDiff_eq3 (tol d : ℚ) (ht : 0 < tol) (h1 : tol * 2 < d) (h2 : d ≤ tol * 5) :
    areaScoreOfDiff tol d = 50 - (d - tol * 2) / (tol * 3) * 30 := by
  unfold areaScoreOfDiff
  rw [if_neg (not_le.mpr (by linarith)), if_neg (not_le.mpr h1), if_pos h2]

/-- Branch evaluation: beyond five times the tolerance. -/
lemma areaScoreOfDiff_eq4 (tol d : ℚ) (ht : 0 < tol) (h : tol * 5 < d) :
    areaScoreOfDiff tol d = max 0 (20 - (d - tol * 5) / 10) := by
  unfold areaScoreOfDiff
  rw [if_neg (not_le.mpr (by linarith)), if_neg (not_le.mpr (by linarith)),
    if_neg (not_le.mpr h)]

/-- Within tolerance the decay ranges over [80,100]. -/
lemma areaScoreOfDiff_b1 (tol d : ℚ) (ht : 0 < tol) (h0 : 0 ≤ d) (h : d ≤ tol) :
    80 ≤ areaScoreOfDiff tol d ∧ areaScoreOfDiff tol d ≤ 100 := by
  rw [areaScoreOfDiff_eq1 tol d h]
  have h1 : d / tol ≤ 1 := (div_le_one ht).mpr h
  have h2 : 0 ≤ d / tol := div_nonneg h0 ht.le
  constructor <;> linarith

/-- Between one and two tolerances the decay ranges over [50,80]. -/
lemma areaScoreOfDiff_b2 (tol d : ℚ) (ht : 0 < tol) (h1 : tol < d) (h2 : d ≤ tol * 2) :
    50 ≤ areaScoreOfDiff tol d ∧ areaScoreOfDiff tol d ≤ 80 := by
  rw [areaScoreOfDiff_eq2 tol d h1 h2]
  have ha : (d - tol) / tol ≤ 1 := (div_le_one ht).mpr (by linarith)
  have hb : 0 ≤ (d - tol) / tol := div_nonneg (by linarith) ht.le
  constructor <;> linarith

/-- Between two and five tolerances the decay ranges over [20,50]. -/
lemma areaScoreOfDiff_b3 (tol d : ℚ) (ht : 0 < tol) (h1 : tol * 2 < d) (h2 : d ≤ tol * 5) :
    20 ≤ areaScoreOfDiff tol d ∧ areaScoreOfDiff tol d ≤ 50 := by
  rw [areaScoreOfDiff_eq3 tol d ht h1 h2]
  have h3 : (0:ℚ) < tol * 3 := by linarith
  have ha : (d - tol * 2) / (tol * 3) ≤ 1 := (div_le_one h3).mpr (by linarith)
  have hb : 0 ≤ (d - tol * 2) / (tol * 3) := div_nonneg (by linarith) h3.le
  constructor <;> linarith

/-- Beyond five tolerances the decay ranges over [0,20]. -/
lemma areaScoreOfDiff_b4 (tol d : ℚ) (ht : 0 < tol) (h1 : tol * 5 < d) :
    0 ≤ areaScoreOfDiff tol d ∧ areaScoreOfDiff tol d ≤ 20 := by
  rw [areaScoreOfDiff_eq4 tol d ht h1]
  have hb : 0 ≤ (d - tol * 5) / 10 := div_nonneg (by linarith) (by norm_num)
  exact ⟨le_max_left 0 _, max_le (by norm_num) (by linarith)⟩

/-- Past the tolerance the decay never exceeds 80. -/
lemma areaScoreOfDiff_ub80 (tol d : ℚ) (ht : 0 < tol) (h : tol < d) :
    areaScoreOfDiff tol d ≤ 80 := by
  rcases le_or_lt d (tol * 2) with h2 | h2
  · exact (areaScoreOfDiff_b2 tol d ht h h2).2
  · rcases le_or_lt d (tol * 5) with h3 | h3
    · exact le_trans (areaScoreOfDiff_b3 tol d ht h2 h3).2 (by norm_num)
    · exact le_trans (areaScoreOfDiff_b4 tol d ht h3).2 (by norm_num)

/-- Past twice the tolerance the decay never exceeds 50. -/
lemma areaScoreOfDiff_ub50 (tol d : ℚ) (ht : 0 < tol) (h : tol * 2 < d) :
    areaScoreOfDiff tol d ≤ 50 := by
  rcases le_or_lt d (tol * 5) with h3 | h3
  · exact (areaScoreOfDiff_b3 tol d ht h h3).2
  · exact le_trans (areaScoreOfDiff_b4 tol d ht h3).2 (by norm_num)

/-- The decay is non-increasing in the percent difference. -/
lemma areaScoreOfDiff_mono (tol d1 d2 : ℚ) (ht : 0 < tol) (h0 : 0 ≤ d1) (h12 : d1 ≤ d2) :
    areaScoreOfDiff tol d2 ≤ areaScoreOfDiff tol d1 := by
  rcases le_or_lt d2 tol with hb | hb
  · rw [areaScoreOfDiff_eq1 tol d2 hb, areaScoreOfDiff_eq1 tol d1 (le_trans h12 hb)]
    have : d1 / tol ≤ d2 / tol := (div_le_div_iff_of_pos_right ht).mpr h12
    linarith
  · rcases le_or_lt d1 tol with ha | ha
    · exact le_trans (areaScoreOfDiff_ub80 tol d2 ht hb)
        (areaScoreOfDiff_b1 tol d1 ht h0 ha).1
    · rcases le_or_lt d2 (tol * 2) with hc | hc
      · rw [areaScoreOfDiff_eq2 tol d2 hb hc,
          areaScoreOfDiff_eq2 tol d1 ha (le_trans h12 hc)]
        have : (d1 - tol) / tol ≤ (d2 - tol) / tol :=
          (div_le_div_iff_of_pos_right ht).mpr (by linarith)
        linarith
      · rcases le_or_lt d1 (tol * 2) with hd | hd
        · exact le_trans (areaScoreOfDiff_ub50 tol d2 ht hc)
            (areaScoreOfDiff_b2 tol d1 ht ha hd).1
        · rcases le_or_lt d2 (tol * 5) with he | he
          · rw [areaScoreOfDiff_eq3 tol d2 ht hc he,
              areaScoreOfDiff_eq3 tol d1 ht hd (le_trans h12 he)]
            have h3 : (0:ℚ) < tol * 3 := by linarith
            have : (d1 - tol * 2) / (tol * 3) ≤ (d2 - tol * 2) / (tol * 3) :=
              (div_le_div_iff_of_pos_right h3).mpr (by linarith)
            linarith
          · rcases le_or_lt d1 (tol * 5) with hf | hf
            · exact le_trans (areaScoreOfDiff_b4 tol d2 ht he).2
                (areaScoreOfDiff_b3 tol d1 ht hd hf).1
            · rw [areaScoreOfDiff_eq4 tol d2 ht he, areaScoreOfDiff_eq4 tol d1 ht hf]
              refine max_le_max (le_refl 0) ?_
              have : (d1 - tol * 5) / 10 ≤ (d2 - tol * 5) / 10 := by linarith
              linarith

/-- On positive areas _calculate_area_score is exactly the piecewise decay
applied to the percent difference (a pair of equal areas has difference 0 and
the first branch yields 100 there too). -/
lemma calculate_area_score_eq_ofDiff (tol a1 a2 : ℚ) (ht : 0 < tol) (h1 : 0 < a1)
    (h2 : 0 < a2) :
    calculate_area_score tol a1 a2 = areaScoreOfDiff tol (pctDiff a1 a2) := by
  unfold calculate_area_score areaScoreOfDiff pctDiff
  rcases eq_or_ne a1 a2 with he | he
  · subst he
    rw [if_neg (by push_neg; exact ⟨h1.ne', h1.ne'⟩), if_pos rfl, sub_self, abs_zero,
      zero_div, zero_mul, if_pos (by linarith : (0:ℚ) ≤ tol), zero_div, zero_mul, sub_zero]
  · rw [if_neg (by push_neg; exact ⟨h1.ne', h2.ne'⟩), if_neg he]

/-- Claim C8: for a fixed positive tolerance, the area score computed from two
positive areas is the piecewise decay of the percent difference
d = |a1−a2|/max(a1,a2)·100, and that decay is non-increasing in d, across the
breakpoints at d = t, d = 2t and d = 5t included. -/
theorem C8_area_monotonicity (tol d1 d2 a1 a2 : ℚ) (ht : 0 < tol) (h0 : 0 ≤ d1)
    (h12 : d1 ≤ d2) (ha1 : 0 < a1) (ha2 : 0 < a2) :
    areaScoreOfDiff tol d2 ≤ areaScoreOfDiff tol d1 ∧
    calculate_area_score tol a1 a2 = areaScoreOfDiff tol (pctDiff a1 a2) :=
  ⟨areaScoreOfDiff_mono tol d1 d2 ht h0 h12,
    calculate_area_score_eq_ofDiff tol a1 a2 ht ha1 ha2⟩

/-- Witness for C8 at tolerance 5, differences 2 and 30, areas 2500/2550. -/
theorem C8_witness :
    areaScoreOfDiff 5 30 ≤ areaScoreOfDiff 5 2 ∧
    calculate_area_score 5 2500 2550 = areaScoreOfDiff 5 (pctDiff 2500 2550) :=
  C8_area_monotonicity 5 2 30 2500 2550 (by norm_num) (by norm_num) (by norm_num)
    (by norm_num) (by norm_num)

/-- The LCS is never longer than the first string. -/
lemma lcsAux_le_left : ∀ (fuel : Nat) (s1 s2 : Str), lcsAux fuel s1 s2 ≤ s1.length := by
  intro fuel
  induction fuel with
  | zero => intro s1 s2; simp [lcsAux]
  | succ n ih =>
    intro s1 s2
    cases s1 with
    | nil => simp [lcsAux]
    | cons a as =>
      cases s2 with
      | nil => simp [lcsAux]
      | cons b bs =>
        simp only [lcsAux, List.length_cons]
        split
        · exact Nat.succ_le_succ (ih as bs)
        · refine max_le ?_ ?_
          · simpa using ih (a :: as) bs
          · exact le_trans (ih as (b :: bs)) (Nat.le_succ _)

/-- The LCS is never longer than the second string. -/
lemma lcsAux_le_right : ∀ (fuel : Nat) (s1 s2 : Str), lcsAux fuel s1 s2 ≤ s2.length := by
  intro fuel
  induction fuel with
  | zero => intro s1 s2; simp [lcsAux]
  | succ n ih =>
    intro s1 s2
    cases s1 with
    | nil => simp [lcsAux]
    | cons a as =>
      cases s2 with
      | nil => simp [lcsAux]
      | cons b bs =>
        simp only [lcsAux, List.length_cons]
        split
        · exact Nat.succ_le_succ (ih as bs)
        · refine max_le ?_ ?_
          · exact le_trans (ih (a :: as) bs) (Nat.le_succ _)
          · simpa using ih as (b :: bs)

/-- Twice the LCS is bounded by the total length. -/
lemma two_lcsLen_le (s1 s2 : Str) : 2 * lcsLen s1 s2 ≤ s1.length + s2.length := by
  have h1 := lcsAux_le_left (s1.length + s2.length) s1 s2
  have h2 := lcsAux_le_right (s1.length + s2.length) s1 s2
  unfold lcsLen
  omega

/-- fuzz.ratio always lies in [0, 100]. -/
lemma fuzz_ratio_bounds (s1 s2 : Str) : 0 ≤ fuzz_ratio s1 s2 ∧ fuzz_ratio s1 s2 ≤ 100 := by
  unfold fuzz_ratio
  split
  · norm_num
  · rename_i hn
    have hpos : (0:ℚ) < ((s1.length + s2.length : ℕ) : ℚ) := by
      have : 0 < s1.length + s2.length := Nat.pos_of_ne_zero hn
      exact_mod_cast this
    have hnum : ((s1.length + s2.length : ℤ) - indelDist s1 s2 : ℤ) = 2 * lcsLen s1 s2 := by
      unfold indelDist
      ring
    have hub := two_lcsLen_le s1 s2
    constructor
    · apply div_nonneg _ hpos.le
      apply mul_nonneg (by norm_num)
      rw [hnum]
      positivity
    · rw [div_le_iff₀ hpos]
      rw [hnum]
      push_cast
      have : (2 * lcsLen s1 s2 : ℚ) ≤ ((s1.length : ℚ) + s2.length) := by exact_mod_cast hub
      nlinarith

/-- The seed is a lower bound of a left max-fold. -/
lemma le_foldl_max (l : List ℚ) : ∀ a : ℚ, a ≤ l.foldl max a := by
  induction l with
  | nil => intro a; simp
  | cons x xs ih => intro a; exact le_trans (le_max_left a x) (ih (max a x))

/-- A common upper bound of seed and elements bounds a left max-fold. -/
lemma foldl_max_le (l : List ℚ) : ∀ a b : ℚ, a ≤ b → (∀ x ∈ l, x ≤ b) →
    l.foldl max a ≤ b := by
  induction l with
  | nil => intro a b h _; simpa
  | cons x xs ih =>
    intro a b h hall
    simp only [List.foldl_cons]
    exact ih (max a x) b (max_le h (hall x (List.mem_cons_self x xs)))
      (fun y hy => hall y (List.mem_cons_of_mem x hy))

/-- Every element is a lower bound of a left max-fold. -/
lemma mem_le_foldl_max (l : List ℚ) : ∀ (a : ℚ), ∀ x ∈ l, x ≤ l.foldl max a := by
  induction l with
  | nil => intro a x hx; cases hx
  | cons y ys ih =>
    intro a x hx
    simp only [List.foldl_cons]
    rcases List.mem_cons.mp hx with rfl | hx2
    · exact le_trans (le_max_right a x) (le_foldl_max ys (max a x))
    · exact ih (max a y) x hx2

/-- fuzz.partial_ratio always lies in [0, 100]. -/
lemma fuzz_partial_ratio_bounds (s1 s2 : Str) :
    0 ≤ fuzz_partial_ratio s1 s2 ∧ fuzz_partial_ratio s1 s2 ≤ 100 := by
  unfold fuzz_partial_ratio
  split
  · split <;> norm_num
  · constructor
    · exact le_foldl_max _ 0
    · apply foldl_max_le
      · norm_num
      · intro x hx
        obtain ⟨w, hw, rfl⟩ := List.mem_map.mp hx
        exact (fuzz_ratio_bounds _ w).2

/-- fuzz.token_sort_ratio always lies in [0, 100]. -/
lemma fuzz_token_sort_ratio_bounds (s1 s2 : Str) :
    0 ≤ fuzz_token_sort_ratio s1 s2 ∧ fuzz_token_sort_ratio s1 s2 ≤ 100 := by
  unfold fuzz_token_sort_ratio
  exact fuzz_ratio_bounds _ _

/-- fuzz.token_set_ratio always lies in [0, 100]. -/
lemma fuzz_token_set_ratio_bounds (s1 s2 : Str) :
    0 ≤ fuzz_token_set_ratio s1 s2 ∧ fuzz_token_set_ratio s1 s2 ≤ 100 := by
  unfold fuzz_token_set_ratio
  constructor
  · exact le_trans (fuzz_ratio_bounds _ _).1 (le_max_left _ _)
  · exact max_le (fuzz_ratio_bounds _ _).2
      (max_le (fuzz_ratio_bounds _ _).2 (fuzz_ratio_bounds _ _).2)

/-- The blended name score always lies in [0, 100]. -/
lemma calculate_name_score_bounds (n1 n2 : Str) :
    0 ≤ calculate_name_score n1 n2 ∧ calculate_name_score n1 n2 ≤ 100 := by
  unfold calculate_name_score
  split
  · norm_num
  · split
    · norm_num
    · obtain ⟨r1, r2⟩ := fuzz_ratio_bounds n1 n2
      obtain ⟨p1, p2⟩ := fuzz_partial_ratio_bounds n1 n2
      obtain ⟨t1, t2⟩ := fuzz_token_sort_ratio_bounds n1 n2
      obtain ⟨u1, u2⟩ := fuzz_token_set_ratio_bounds n1 n2
      constructor <;> nlinarith

/-- The id score always lies in [0, 100]. -/
lemma calculate_id_score_bounds (i1 i2 : Str) :
    0 ≤ calculate_id_score i1 i2 ∧ calculate_id_score i1 i2 ≤ 100 := by
  unfold calculate_id_score
  split
  · norm_num
  · split
    · norm_num
    · exact fuzz_ratio_bounds i1 i2

/-- For nonnegative percent difference the decay lies in [0, 100]. -/
lemma areaScoreOfDiff_bounds (tol d : ℚ) (ht : 0 < tol) (hd : 0 ≤ d) :
    0 ≤ areaScoreOfDiff tol d ∧ areaScoreOfDiff tol d ≤ 100 := by
  rcases le_or_lt d tol with h | h
  · have := areaScoreOfDiff_b1 tol d ht hd h
    constructor <;> linarith
  rcases le_or_lt d (tol * 2) with h2 | h2
  · have := areaScoreOfDiff_b2 tol d ht h h2
    constructor <;> linarith
  rcases le_or_lt d (tol * 5) with h3 | h3
  · have := areaScoreOfDiff_b3 tol d ht h2 h3
    constructor <;> linarith
  · have := areaScoreOfDiff_b4 tol d ht h3
    constructor <;> linarith

/-- With a positive tolerance and nonnegative areas the area score lies in
[0, 100]. -/
lemma calculate_area_score_bounds (tol a1 a2 : ℚ) (ht : 0 < tol) (h1 : 0 ≤ a1) (h2 : 0 ≤ a2) :
    0 ≤ calculate_area_score tol a1 a2 ∧ calculate_area_score tol a1 a2 ≤ 100 := by
  rcases eq_or_lt_of_le h1 with he1 | hp1
  · unfold calculate_area_score
    rw [if_pos (Or.inl he1.symm)]
    norm_num
  rcases eq_or_lt_of_le h2 with he2 | hp2
  · unfold calculate_area_score
    rw [if_pos (Or.inr he2.symm)]
    norm_num
  rw [calculate_area_score_eq_ofDiff tol a1 a2 ht hp1 hp2]
  have hd : 0 ≤ pctDiff a1 a2 := by
    unfold pctDiff
    apply mul_nonneg _ (by norm_num)
    exact div_nonneg (abs_nonneg _) (le_max_of_le_left hp1.le)
  exact areaScoreOfDiff_bounds tol _ ht hd

/-- Claim C7: for every parcel/record pair with nonnegative areas and a
positive area tolerance, the name, id and area scores each lie in [0,100],
and under the combined algorithm (whose weights 0.40/0.30/0.30 sum to 1) the
total score lies in [0,100] as well. -/
theorem C7_score_bounds (e : MatchingEngine) (p r : Row) (halg : e.algorithm = pyStr "combined")
    (hp : 0 ≤ p.area) (hr : 0 ≤ r.area) (ht : 0 < e.area_tolerance) :
    (0 ≤ (calculate_match e p r).name_score ∧ (calculate_match e p r).name_score ≤ 100) ∧
    (0 ≤ (calculate_match e p r).id_score ∧ (calculate_match e p r).id_score ≤ 100) ∧
    (0 ≤ (calculate_match e p r).area_score ∧ (calculate_match e p r).area_score ≤ 100) ∧
    (0 ≤ (calculate_match e p r).total_score ∧ (calculate_match e p r).total_score ≤ 100) := by
  obtain ⟨n1, n2⟩ :=
    calculate_name_score_bounds (normalize_name p.owner_name) (normalize_name r.owner_name)
  obtain ⟨i1, i2⟩ :=
    calculate_id_score_bounds (normalize_id p.plot_id) (normalize_id r.plot_id)
  obtain ⟨a1, a2⟩ := calculate_area_score_bounds e.area_tolerance p.area r.area ht hp hr
  unfold calculate_match
  rw [halg]
  simp only []
  rw [if_neg (by decide : ¬ (pyStr "combined" = pyStr "levenshtein")),
    if_neg (by decide : ¬ (pyStr "combined" = pyStr "jaro_winkler")),
    if_neg (by decide : ¬ (pyStr "combined" = pyStr "cosine"))]
  refine ⟨⟨n1, n2⟩, ⟨i1, i2⟩, ⟨a1, a2⟩, ?_, ?_⟩ <;>
    · unfold WEIGHT_NAME WEIGHT_AREA WEIGHT_ID
      nlinarith

/-- Witness for C7 at the default engine on the scenario rows. -/
theorem C7_witness :
    (0 ≤ (calculate_match defaultEngine parcelC2 recordC2).name_score ∧
      (calculate_match defaultEngine parcelC2 recordC2).name_score ≤ 100) ∧
    (0 ≤ (calculate_match defaultEngine parcelC2 recordC2).id_score ∧
      (calculate_match defaultEngine parcelC2 recordC2).id_score ≤ 100) ∧
    (0 ≤ (calculate_match defaultEngine parcelC2 recordC2).area_score ∧
      (calculate_match defaultEngine parcelC2 recordC2).area_score ≤ 100) ∧
    (0 ≤ (calculate_match defaultEngine parcelC2 recordC2).total_score ∧
      (calculate_match defaultEngine parcelC2 recordC2).total_score ≤ 100) :=
  C7_score_bounds defaultEngine parcelC2 recordC2 (by decide) (by decide) (by decide) (by decide)

/-- dropWhile is the identity when no character satisfies the predicate. -/
lemma dropWhile_eq_self_of (p : Nat → Bool) (l : Str) (h : ∀ c ∈ l, p c = false) :
    l.dropWhile p = l := by
  cases l with
  | nil => rfl
  | cons c cs =>
    rw [List.dropWhile_cons, h c (List.mem_cons_self c cs)]
    simp

/-- strip is the identity on whitespace-free strings. -/
lemma stripM_eq_self_of (l : Str) (h : ∀ c ∈ l, isWsM c = false) : stripM l = l := by
  unfold stripM
  rw [dropWhile_eq_self_of _ _ h,
    dropWhile_eq_self_of _ _ (fun c hc => h c (List.mem_reverse.mp hc)),
    List.reverse_reverse]

/-- Whitespace-squeezing is the identity on whitespace-free strings. -/
lemma squeezeAux_eq_self_of (l : Str) (h : ∀ c ∈ l, isWsM c = false) :
    ∀ b, squeezeAux b l = l := by
  induction l with
  | nil => intro b; rfl
  | cons c cs ih =>
    intro b
    have hc := h c (List.mem_cons_self c cs)
    have ih2 := ih (fun d hd => h d (List.mem_cons_of_mem c hd))
    simp [squeezeAux, hc, ih2]

/-- On whitespace-free strings splitAux yields a single token. -/
lemma splitAux_eq_of (l : Str) (h : ∀ c ∈ l, isWsM c = false) :
    ∀ acc : Str, splitAux l acc =
      if (acc.reverse ++ l).isEmpty then [] else [acc.reverse ++ l] := by
  induction l with
  | nil =>
    intro acc
    simp [splitAux]
  | cons c cs ih =>
    intro acc
    have hc := h c (List.mem_cons_self c cs)
    have ih2 := ih (fun d hd => h d (List.mem_cons_of_mem c hd)) (c :: acc)
    simp only [splitAux, hc, Bool.false_eq_true, if_false]
    rw [ih2]
    have e1 : (c :: acc).reverse ++ cs = acc.reverse ++ (c :: cs) := by
      rw [List.reverse_cons, List.append_assoc, List.singleton_append]
    rw [e1]

/-- Python split() of a whitespace-free string is empty or that one token. -/
lemma splitWsM_eq_of (l : Str) (h : ∀ c ∈ l, isWsM c = false) :
    splitWsM l = if l.isEmpty then [] else [l] := by
  unfold splitWsM
  rw [splitAux_eq_of l h []]
  simp

/-- The head surviving a dropWhile fails the predicate. -/
lemma dropWhile_head_false (p : Nat → Bool) : ∀ {t d : Str} {x : Nat},
    t.dropWhile p = x :: d → p x = false := by
  intro t
  induction t with
  | nil => intro d x h; simp [List.dropWhile] at h
  | cons c cs ih =>
    intro d x h
    rcases hb : p c with _ | _
    · rw [List.dropWhile_cons, hb] at h
      simp at h
      obtain ⟨rfl, -⟩ := h
      exact hb
    · rw [List.dropWhile_cons, hb] at h
      simp at h
      exact ih h

/-- Leading-zero stripping is idempotent. -/
lemma stripZeros_idem (t : Str) : stripZeros (stripZeros t) = stripZeros t := by
  rcases hd : t.dropWhile (· == 48) with _ | ⟨x, d⟩
  · simp only [stripZeros, hd]
    rfl
  · have hx : (x == 48) = false := dropWhile_head_false (fun y => y == 48) hd
    simp only [stripZeros, hd]
    rw [List.dropWhile_cons, hx]
    simp

/-- Characters of a zero-stripped token come from the token or are the zero
digit. -/
lemma mem_stripZeros (t : Str) (c : Nat) (hc : c ∈ stripZeros t) : c ∈ t ∨ c = 48 := by
  unfold stripZeros at hc
  rcases hd : t.dropWhile (· == 48) with _ | ⟨x, d⟩ <;> rw [hd] at hc
  · right
    simpa using hc
  · left
    have hmem : c ∈ t.dropWhile (· == 48) := by rw [hd]; exact hc
    exact (List.dropWhile_sublist _).subset hmem

/-- A zero-stripped token is never empty. -/
lemma stripZeros_ne_nil (t : Str) : stripZeros t ≠ [] := by
  unfold stripZeros
  rcases hd : t.dropWhile (· == 48) with _ | ⟨x, d⟩ <;> simp [hd]

/-- ASCII lower-casing is idempotent. -/
lemma toLowerM_idem (c : Nat) : toLowerM (toLowerM c) = toLowerM c := by
  unfold toLowerM
  split
  · rename_i h
    rw [if_neg (by omega)]
  · rfl

/-- Lower-casing does not create or destroy whitespace. -/
lemma isWsM_toLowerM (c : Nat) : isWsM (toLowerM c) = isWsM c := by
  unfold toLowerM
  split
  · rename_i h
    have h1 : isWsM (c + 32) = false := by simp [isWsM]; omega
    have h2 : isWsM c = false := by simp [isWsM]; omega
    rw [h1, h2]
  · rfl

/-- map is the identity when the function fixes every member. -/
lemma map_eq_self_of (f : Nat → Nat) (l : Str) (h : ∀ c ∈ l, f c = c) : l.map f = l := by
  induction l with
  | nil => rfl
  | cons c cs ih =>
    rw [List.map_cons, h c (List.mem_cons_self c cs),
      ih (fun d hd => h d (List.mem_cons_of_mem c hd))]

/-- An honorific prefix is never stripped from a whitespace-free string: the
prefix must be followed by a blank. -/
lemma honorifics_foldl_eq_self (n : Str) (h : ∀ c ∈ n, isWsM c = false) :
    honorifics.foldl
      (fun m p => if (p ++ [32]).isPrefixOf m then m.drop (p.length + 1) else m) n = n := by
  have key : ∀ p : Str, ((p ++ [32]).isPrefixOf n) = false := by
    intro p
    rcases hb : (p ++ [32]).isPrefixOf n with _ | _
    · exact hb
    · exfalso
      have hpre : (p ++ [32]) <+: n := List.isPrefixOf_iff_prefix.mp hb
      have h32 : 32 ∈ n :=
        hpre.sublist.subset (List.mem_append_right p (List.mem_singleton.mpr rfl))
      have := h 32 h32
      simp [isWsM] at this
  have main : ∀ ps : List Str,
      ps.foldl (fun m p => if (p ++ [32]).isPrefixOf m then m.drop (p.length + 1) else m) n
        = n := by
    intro ps
    induction ps with
    | nil => rfl
    | cons p ps ih =>
      simp only [List.foldl_cons, key p, Bool.false_eq_true, if_false]
      exact ih
  exact main honorifics

/-- On a whitespace-free string normalize_name is just lower-casing followed by
the character filter. -/
lemma normalize_name_eq_of_wsFree (s : Str) (h : ∀ c ∈ s, isWsM c = false) :
    normalize_name s = (s.map toLowerM).filter isKeptM := by
  unfold normalize_name
  simp only []
  have hmap : ∀ c ∈ s.map toLowerM, isWsM c = false := by
    intro c hc
    obtain ⟨d, hd, rfl⟩ := List.mem_map.mp hc
    rw [isWsM_toLowerM]
    exact h d hd
  rw [stripM_eq_self_of _ hmap, honorifics_foldl_eq_self _ hmap]
  have hfil : ∀ c ∈ (s.map toLowerM).filter isKeptM, isWsM c = false :=
    fun c hc => hmap c (List.mem_of_mem_filter hc)
  unfold squeezeWs
  rw [squeezeAux_eq_self_of _ hfil false, stripM_eq_self_of _ hfil]

/-- normalize_name is idempotent on whitespace-free strings. -/
lemma normalize_name_idem_of_wsFree (s : Str) (h : ∀ c ∈ s, isWsM c = false) :
    normalize_name (normalize_name s) = normalize_name s := by
  rw [normalize_name_eq_of_wsFree s h]
  have hzmem : ∀ c ∈ (s.map toLowerM).filter isKeptM,
      isWsM c = false ∧ toLowerM c = c ∧ isKeptM c = true := by
    intro c hc
    have hkept := List.of_mem_filter hc
    have hmem := List.mem_of_mem_filter hc
    obtain ⟨d, hd, rfl⟩ := List.mem_map.mp hmem
    exact ⟨by rw [isWsM_toLowerM]; exact h d hd, toLowerM_idem d, hkept⟩
  rw [normalize_name_eq_of_wsFree _ (fun c hc => (hzmem c hc).1),
    map_eq_self_of _ _ (fun c hc => (hzmem c hc).2.1),
    List.filter_eq_self.mpr (fun c hc => (hzmem c hc).2.2)]

/-- On a whitespace-free string normalize_id is lower-casing, separator
removal and one zero-stripping decision on the single resulting token. -/
lemma normalize_id_eq_of_wsFree (s : Str) (h : ∀ c ∈ s, isWsM c = false) :
    normalize_id s =
      (if pyIsDigit ((s.map toLowerM).filter (fun c => !isSepM c)) then
        stripZeros ((s.map toLowerM).filter (fun c => !isSepM c))
      else (s.map toLowerM).filter (fun c => !isSepM c)) := by
  unfold normalize_id
  simp only []
  have hmap : ∀ c ∈ s.map toLowerM, isWsM c = false := by
    intro c hc
    obtain ⟨d, hd, rfl⟩ := List.mem_map.mp hc
    rw [isWsM_toLowerM]
    exact h d hd
  rw [stripM_eq_self_of _ hmap]
  have hfil : ∀ c ∈ (s.map toLowerM).filter (fun c => !isSepM c), isWsM c = false :=
    fun c hc => hmap c (List.mem_of_mem_filter hc)
  rw [splitWsM_eq_of _ hfil]
  by_cases he : ((s.map toLowerM).filter (fun c => !isSepM c)).isEmpty = true
  · have hnil : (s.map toLowerM).filter (fun c => !isSepM c) = [] := by
      simpa using he
    rw [if_pos he, hnil]
    simp [pyIsDigit]
  · rw [if_neg he]
    simp

/-- normalize_id is idempotent on whitespace-free strings. -/
lemma normalize_id_idem_of_wsFree (s : Str) (h : ∀ c ∈ s, isWsM c = false) :
    normalize_id (normalize_id s) = normalize_id s := by
  rw [normalize_id_eq_of_wsFree s h]
  have hFmem : ∀ c ∈ (s.map toLowerM).filter (fun c => !isSepM c),
      isWsM c = false ∧ toLowerM c = c ∧ (!isSepM c) = true := by
    intro c hc
    have hsep := List.of_mem_filter hc
    have hmem := List.mem_of_mem_filter hc
    obtain ⟨d, hd, rfl⟩ := List.mem_map.mp hmem
    exact ⟨by rw [isWsM_toLowerM]; exact h d hd, toLowerM_idem d, hsep⟩
  by_cases hdig : pyIsDigit ((s.map toLowerM).filter (fun c => !isSepM c)) = true
  · rw [if_pos hdig]
    have hall : ((s.map toLowerM).filter (fun c => !isSepM c)).all isDigitM = true := by
      unfold pyIsDigit at hdig
      simp only [Bool.and_eq_true] at hdig
      exact hdig.2
    have hzmem : ∀ c ∈ stripZeros ((s.map toLowerM).filter (fun c => !isSepM c)),
        isWsM c = false ∧ toLowerM c = c ∧ (!isSepM c) = true ∧ isDigitM c = true := by
      intro c hc
      rcases mem_stripZeros _ c hc with hcF | rfl
      · have h3 := hFmem c hcF
        exact ⟨h3.1, h3.2.1, h3.2.2, (List.all_eq_true.mp hall) c hcF⟩
      · exact ⟨by decide, by decide, by decide, by decide⟩
    rw [normalize_id_eq_of_wsFree _ (fun c hc => (hzmem c hc).1),
      map_eq_self_of _ _ (fun c hc => (hzmem c hc).2.1),
      List.filter_eq_self.mpr (fun c hc => (hzmem c hc).2.2.1)]
    have hzdig : pyIsDigit (stripZeros ((s.map toLowerM).filter (fun c => !isSepM c))) = true := by
      unfold pyIsDigit
      rw [Bool.and_eq_true]
      constructor
      · have := stripZeros_ne_nil ((s.map toLowerM).filter (fun c => !isSepM c))
        simpa using this
      · exact List.all_eq_true.mpr (fun c hc => (hzmem c hc).2.2.2)
    rw [if_pos hzdig]
    exact stripZeros_idem _
  · rw [if_neg hdig]
    rw [normalize_id_eq_of_wsFree _ (fun c hc => (hFmem c hc).1),
      map_eq_self_of _ _ (fun c hc => (hFmem c hc).2.1),
      List.filter_eq_self.mpr (fun c hc => (hFmem c hc).2.2), if_neg hdig]

/-- Claim C3, counterexample: neither normalizer is idempotent on all strings.
A second normalize_name pass strips a further honorific exposed by the first
("mr mr a" → "mr a" → "a"), and normalize_identifier can create an all-digit
token with a leading zero by concatenation ("0 1" → "01" → "1"). -/
theorem C3_counterexample :
    normalize_name (normalize_name (pyStr "mr mr a")) ≠ normalize_name (pyStr "mr mr a") ∧
    normalize_id (normalize_id (pyStr "0 1")) ≠ normalize_id (pyStr "0 1") := by decide

/-- Claim C3 (amended): on every whitespace-free input string both normalizers
are idempotent (the failures require whitespace: a stripped honorific must be
followed by a blank, and leading-zero creation needs token concatenation). -/
theorem C3_idempotent_on_ws_free (s : Str) (h : ∀ c ∈ s, isWsM c = false) :
    normalize_name (normalize_name s) = normalize_name s ∧
    normalize_id (normalize_id s) = normalize_id s :=
  ⟨normalize_name_idem_of_wsFree s h, normalize_id_idem_of_wsFree s h⟩

/-- Witness for C3 on the whitespace-free string "P-007". -/
theorem C3_witness :
    normalize_name (normalize_name (pyStr "P-007")) = normalize_name (pyStr "P-007") ∧
    normalize_id (normalize_id (pyStr "P-007")) = normalize_id (pyStr "P-007") :=
  C3_idempotent_on_ws_free (pyStr "P-007") (by decide)

/-- Shifting the seed of a max-fold to a larger value maxes it in. -/
lemma foldl_max_shift (l : List ℚ) : ∀ a b : ℚ, b ≤ a →
    l.foldl max a = max a (l.foldl max b) := by
  induction l with
  | nil => intro a b h; simp [max_eq_left h]
  | cons x xs ih =>
    intro a b h
    simp only [List.foldl_cons]
    have hF : x ≤ xs.foldl max (max b x) :=
      le_trans (le_max_right b x) (le_foldl_max xs (max b x))
    rw [ih (max a x) (max b x) (max_le_max h (le_refl x)), max_assoc, max_eq_right hF]

/-- A max-fold strictly above its seed is attained by an element. -/
lemma foldl_max_attain (l : List ℚ) : ∀ a : ℚ, a < l.foldl max a →
    ∃ x ∈ l, l.foldl max a = x := by
  induction l with
  | nil => intro a h; simp at h
  | cons y ys ih =>
    intro a h
    simp only [List.foldl_cons] at h ⊢
    rcases le_or_lt y a with h1 | h1
    · rw [max_eq_left h1] at h ⊢
      obtain ⟨x, hx, he⟩ := ih a h
      exact ⟨x, List.mem_cons_of_mem y hx, he⟩
    · rw [max_eq_right h1.le] at h ⊢
      rcases lt_or_le y (ys.foldl max y) with h2 | h2
      · obtain ⟨x, hx, he⟩ := ih y h2
        exact ⟨x, List.mem_cons_of_mem y hx, he⟩
      · exact ⟨y, List.mem_cons_self y ys, le_antisymm h2 (le_foldl_max ys y)⟩

/-- bestScoreOver as a max-fold over the mapped totals. -/
lemma bestScoreOver_eq (e : MatchingEngine) (p : Row) (init : ℚ) (rs : List Row) :
    bestScoreOver e p init rs = (rs.map (totalOf e p)).foldl max init := by
  unfold bestScoreOver
  rw [List.foldl_map]

/-- The seed bounds bestScoreOver from below. -/
lemma le_bestScoreOver (e : MatchingEngine) (p : Row) (init : ℚ) (rs : List Row) :
    init ≤ bestScoreOver e p init rs := by
  rw [bestScoreOver_eq]
  exact le_foldl_max _ init

/-- bestScoreOver is bounded by any common bound of seed and totals. -/
lemma bestScoreOver_le (e : MatchingEngine) (p : Row) (init b : ℚ) (rs : List Row)
    (h : init ≤ b) (hall : ∀ r ∈ rs, totalOf e p r ≤ b) :
    bestScoreOver e p init rs ≤ b := by
  rw [bestScoreOver_eq]
  refine foldl_max_le _ init b h ?_
  intro x hx
  obtain ⟨r, hr, rfl⟩ := List.mem_map.mp hx
  exact hall r hr

/-- Each total bounds bestScoreOver from below. -/
lemma totalOf_le_bestScoreOver (e : MatchingEngine) (p : Row) (init : ℚ) (rs : List Row)
    (r : Row) (hr : r ∈ rs) : totalOf e p r ≤ bestScoreOver e p init rs := by
  rw [bestScoreOver_eq]
  exact mem_le_foldl_max _ init _ (List.mem_map_of_mem _ hr)

/-- Raising the seed of bestScoreOver maxes it in. -/
lemma bestScoreOver_shift (e : MatchingEngine) (p : Row) (a b : ℚ) (rs : List Row)
    (h : b ≤ a) : bestScoreOver e p a rs = max a (bestScoreOver e p b rs) := by
  rw [bestScoreOver_eq, bestScoreOver_eq]
  exact foldl_max_shift _ a b h

/-- A positive best score is equivalent to some positive total. -/
lemma bestScoreOver_pos_iff (e : MatchingEngine) (p : Row) (rs : List Row) :
    0 < bestScoreOver e p 0 rs ↔ ∃ r ∈ rs, 0 < totalOf e p r := by
  constructor
  · intro h
    rw [bestScoreOver_eq] at h
    obtain ⟨x, hx, he⟩ := foldl_max_attain _ 0 h
    obtain ⟨r, hr, rfl⟩ := List.mem_map.mp hx
    exact ⟨r, hr, he ▸ h⟩
  · intro ⟨r, hr, h⟩
    exact lt_of_lt_of_le h (totalOf_le_bestScoreOver e p 0 rs r hr)

/-- Records of the bucket are input records. -/
lemma mem_of_mem_bucketOf (p : Row) (records : List Row) (r : Row)
    (hr : r ∈ bucketOf p records) : r ∈ records :=
  List.mem_of_mem_filter hr

/-- The bucket's best score never exceeds the global best score. -/
lemma bestScoreOver_bucket_le (e : MatchingEngine) (p : Row) (records : List Row) :
    bestScoreOver e p 0 (bucketOf p records) ≤ bestScoreOver e p 0 records := by
  refine bestScoreOver_le e p 0 _ _ (le_bestScoreOver e p 0 records) ?_
  intro r hr
  exact totalOf_le_bestScoreOver e p 0 records r (mem_of_mem_bucketOf p records r hr)

/-- Unfolding one step of the loop. -/
lemma bestFold_cons (e : MatchingEngine) (p : Row) (acc : Option (Row × MatchScores) × ℚ)
    (r : Row) (rs : List Row) :
    bestFold e p acc (r :: rs) =
      bestFold e p
        (if acc.2 < (calculate_match e p r).total_score
          then (some (r, calculate_match e p r), (calculate_match e p r).total_score)
          else acc) rs := rfl

/-- Unfolding one step of the best-score fold. -/
lemma bestScoreOver_cons (e : MatchingEngine) (p : Row) (init : ℚ) (r : Row) (rs : List Row) :
    bestScoreOver e p init (r :: rs) = bestScoreOver e p (max init (totalOf e p r)) rs := rfl

/-- The tracked best score of the loop is exactly the max-fold of totals. -/
lemma bestFold_snd (e : MatchingEngine) (p : Row) :
    ∀ (rs : List Row) (acc : Option (Row × MatchScores) × ℚ),
      (bestFold e p acc rs).2 = bestScoreOver e p acc.2 rs := by
  intro rs
  induction rs with
  | nil => intro acc; rfl
  | cons r rs ih =>
    intro acc
    rw [bestFold_cons, bestScoreOver_cons, ih]
    congr 1
    unfold totalOf
    by_cases hlt : acc.2 < (calculate_match e p r).total_score
    · rw [if_pos hlt]
      exact (max_eq_right hlt.le).symm
    · rw [if_neg hlt]
      exact (max_eq_left (not_lt.mp hlt)).symm

/-- The initial loop state satisfies the invariant. -/
lemma GoodAcc_init (e : MatchingEngine) (p : Row) (S : List Row) :
    GoodAcc e p S ((none : Option (Row × MatchScores)), (0 : ℚ)) :=
  ⟨le_refl 0, fun _ => rfl, fun r m h => by simp at h⟩

/-- The loop preserves the invariant when it scans records of S. -/
lemma bestFold_good (e : MatchingEngine) (p : Row) (S : List Row) :
    ∀ (rs : List Row) (acc : Option (Row × MatchScores) × ℚ),
      (∀ r ∈ rs, r ∈ S) → GoodAcc e p S acc → GoodAcc e p S (bestFold e p acc rs) := by
  intro rs
  induction rs with
  | nil => intro acc _ h; exact h
  | cons r rs ih =>
    intro acc hsub hg
    rw [bestFold_cons]
    apply ih _ (fun x hx => hsub x (List.mem_cons_of_mem r hx))
    by_cases hlt : acc.2 < (calculate_match e p r).total_score
    · rw [if_pos hlt]
      refine ⟨le_trans hg.1 hlt.le, by simp, ?_⟩
      intro r2 m2 h2
      simp only [Option.some.injEq, Prod.mk.injEq] at h2
      obtain ⟨rfl, rfl⟩ := h2
      exact ⟨rfl, rfl, lt_of_le_of_lt hg.1 hlt, hsub r (List.mem_cons_self r rs)⟩
    · rw [if_neg hlt]
      exact hg

/-- If the loop ends with no match held, nothing was ever held and the score
is unchanged. -/
lemma bestFold_none (e : MatchingEngine) (p : Row) :
    ∀ (rs : List Row) (acc : Option (Row × MatchScores) × ℚ),
      (bestFold e p acc rs).1 = none →
        acc.1 = none ∧ (bestFold e p acc rs).2 = acc.2 := by
  intro rs
  induction rs with
  | nil => intro acc h; exact ⟨h, rfl⟩
  | cons r rs ih =>
    intro acc h
    rw [bestFold_cons] at h ⊢
    by_cases hlt : acc.2 < (calculate_match e p r).total_score
    · rw [if_pos hlt] at h
      obtain ⟨h1, -⟩ := ih _ h
      simp at h1
    · rw [if_neg hlt] at h ⊢
      exact ih _ h

/-- The final loop state satisfies the invariant with S = records. -/
lemma finalAcc_good (e : MatchingEngine) (p : Row) (records : List Row) :
    GoodAcc e p records (finalAcc e p records) := by
  unfold finalAcc
  simp only []
  by_cases hb : (bucketOf p records).isEmpty = true
  · rw [if_pos hb]
    split
    · exact bestFold_good e p records _ _ (fun r hr => hr) (GoodAcc_init e p records)
    · exact GoodAcc_init e p records
  · rw [if_neg hb]
    have hfg : GoodAcc e p records (bestFold e p (none, 0) (bucketOf p records)) :=
      bestFold_good e p records _ _ (mem_of_mem_bucketOf p records) (GoodAcc_init e p records)
    split
    · exact bestFold_good e p records _ _ (fun r hr => hr) hfg
    · exact hfg

/-- Case analysis of the two-tier search: either the bucket pass already found
a score of at least 80 and the result is the bucket's best, or the search
widened and the tracked score is the global best, absent exactly when no
record scores positively. -/
lemma finalAcc_cases (e : MatchingEngine) (p : Row) (records : List Row) :
    (¬ (bucketOf p records).isEmpty = true ∧
      80 ≤ bestScoreOver e p 0 (bucketOf p records) ∧
      (finalAcc e p records).2 = bestScoreOver e p 0 (bucketOf p records) ∧
      (finalAcc e p records).1.isSome = true) ∨
    (((bucketOf p records).isEmpty = true ∨ bestScoreOver e p 0 (bucketOf p records) < 80) ∧
      (finalAcc e p records).2 = bestScoreOver e p 0 records ∧
      ((finalAcc e p records).1 = none ↔ bestScoreOver e p 0 records ≤ 0)) := by
  have gpos := le_bestScoreOver e p 0 records
  unfold finalAcc
  simp only []
  by_cases hb : (bucketOf p records).isEmpty = true
  · right
    rw [if_pos hb, if_pos (by simp)]
    refine ⟨Or.inl hb, ?_, ?_⟩
    · rw [bestFold_snd]
    · constructor
      · intro hn
        obtain ⟨-, hsnd⟩ := bestFold_none e p records _ hn
        rw [bestFold_snd] at hsnd
        simpa using hsnd.le
      · intro hle
        rcases hfa : (bestFold e p ((none : Option (Row × MatchScores)), (0:ℚ)) records).1
          with _ | ⟨r, m⟩
        · rfl
        · exfalso
          have hg := bestFold_good e p records records (none, 0) (fun r hr => hr)
            (GoodAcc_init e p records)
          obtain ⟨-, -, hpos, -⟩ := hg.2.2 r m hfa
          rw [bestFold_snd] at hpos
          exact absurd (lt_of_lt_of_le hpos hle) (lt_irrefl 0)
  · rw [if_neg hb]
    have hfg : GoodAcc e p records (bestFold e p (none, 0) (bucketOf p records)) :=
      bestFold_good e p records _ _ (mem_of_mem_bucketOf p records) (GoodAcc_init e p records)
    have hsnd1 : (bestFold e p ((none : Option (Row × MatchScores)), (0:ℚ))
        (bucketOf p records)).2 = bestScoreOver e p 0 (bucketOf p records) :=
      bestFold_snd e p _ _
    by_cases hcond : ((bestFold e p ((none : Option (Row × MatchScores)), (0:ℚ))
        (bucketOf p records)).1.isNone ||
        decide ((bestFold e p ((none : Option (Row × MatchScores)), (0:ℚ))
          (bucketOf p records)).2 < 80)) = true
    · right
      rw [if_pos hcond]
      have hs1le : bestScoreOver e p 0 (bucketOf p records) < 80 ∨
          bestScoreOver e p 0 (bucketOf p records) = 0 := by
        rcases Bool.or_eq_true_iff.mp hcond with hn | hlt
        · rcases hfa : (bestFold e p ((none : Option (Row × MatchScores)), (0:ℚ))
              (bucketOf p records)).1 with _ | ⟨r, m⟩
          · obtain ⟨-, hsnd⟩ := bestFold_none e p _ _ hfa
            right
            rw [← hsnd1, hsnd]
          · rw [hfa] at hn
            simp at hn
        · left
          rw [← hsnd1]
          exact of_decide_eq_true hlt
      have hfallsnd : (bestFold e p (bestFold e p ((none : Option (Row × MatchScores)), (0:ℚ))
          (bucketOf p records)) records).2 = bestScoreOver e p 0 records := by
        rw [bestFold_snd, hsnd1,
          bestScoreOver_shift e p _ 0 records (le_bestScoreOver e p 0 _)]
        exact max_eq_right (bestScoreOver_bucket_le e p records)
      refine ⟨?_, hfallsnd, ?_⟩
      · right
        rcases hs1le with h | h
        · exact h
        · rw [h]; norm_num
      · constructor
        · intro hn
          obtain ⟨hfn, hsnd⟩ := bestFold_none e p records _ hn
          obtain ⟨-, hz⟩ := bestFold_none e p (bucketOf p records) _ hfn
          rw [hfallsnd] at hsnd
          rw [hsnd, hz]
        · intro hle
          rcases hfa : (bestFold e p (bestFold e p ((none : Option (Row × MatchScores)), (0:ℚ))
              (bucketOf p records)) records).1 with _ | ⟨r, m⟩
          · rfl
          · exfalso
            have hg := bestFold_good e p records records _ (fun r hr => hr) hfg
            obtain ⟨-, -, hpos, -⟩ := hg.2.2 r m hfa
            rw [hfallsnd] at hpos
            exact absurd (lt_of_lt_of_le hpos hle) (lt_irrefl 0)
    · left
      rw [if_neg hcond]
      simp only [Bool.or_eq_true, not_or, Bool.not_eq_true, decide_eq_false_iff_not,
        not_lt] at hcond
      obtain ⟨hnn, hge⟩ := hcond
      refine ⟨hb, ?_, hsnd1, ?_⟩
      · rw [← hsnd1]
        exact hge
      · rw [Option.isSome_iff_ne_none]
        intro hn
        rw [hn] at hnn
        simp at hnn

/-- matchParcel yields a candidate exactly when the loop holds a match. -/
lemma matchParcel_isSome (e : MatchingEngine) (p : Row) (records : List Row) :
    (matchParcel e p records).isSome = (finalAcc e p records).1.isSome := by
  rcases hfa : finalAcc e p records with ⟨o, s⟩
  cases o with
  | none => simp [matchParcel, hfa]
  | some rm =>
    rcases rm with ⟨r, m⟩
    simp [matchParcel, hfa]

/-- When the loop holds a match, the emitted candidate's total is the rounded
tracked best score. -/
lemma matchParcel_total_eq (e : MatchingEngine) (p : Row) (records : List Row)
    (hs : (finalAcc e p records).1.isSome = true) :
    (matchParcel e p records).map Candidate.total_score =
      some (round2 (finalAcc e p records).2) := by
  rcases hfa : finalAcc e p records with ⟨o, s⟩
  cases o with
  | none => rw [hfa] at hs; simp at hs
  | some rm =>
    rcases rm with ⟨r, m⟩
    simp [matchParcel, hfa]

/-- When the loop holds no match, matchParcel emits nothing. -/
lemma matchParcel_eq_none_of (e : MatchingEngine) (p : Row) (records : List Row)
    (h : (finalAcc e p records).1 = none) : matchParcel e p records = none := by
  rcases hfa : finalAcc e p records with ⟨o, s⟩
  rw [hfa] at h
  simp only [] at h
  subst h
  simp [matchParcel, hfa]

/-- Claim C4 (amended): run_matching maps each parcel to at most one
candidate; with an empty textual-record list it returns the empty list without
error; and a parcel produces its candidate precisely when some record scores a
strictly positive total — so with a nonempty record list a parcel whose
records all score 0 produces no candidate, and "exactly one per parcel" holds
only for parcels with a positively-scoring record. -/
theorem C4_one_candidate_iff_positive (e : MatchingEngine) (parcels records : List Row)
    (p : Row) :
    run_matching e parcels [] = [] ∧
    run_matching e parcels records = parcels.filterMap (fun q => matchParcel e q records) ∧
    ((matchParcel e p records).isSome = true ↔ ∃ r ∈ records, 0 < totalOf e p r) := by
  refine ⟨?_, rfl, ?_⟩
  · unfold run_matching
    induction parcels with
    | nil => rfl
    | cons q qs ih =>
      rw [List.filterMap_cons]
      simp only [show matchParcel e q ([] : List Row) = none from rfl]
      exact ih
  · rw [matchParcel_isSome, ← bestScoreOver_pos_iff]
    constructor
    · intro hs
      rcases finalAcc_cases e p records with ⟨hb, h80, hsnd, hsome⟩ | ⟨hcond, hsnd, hnone⟩
      · have hle := bestScoreOver_bucket_le e p records
        linarith
      · by_contra hng
        push_neg at hng
        rw [Option.isSome_iff_ne_none] at hs
        exact hs (hnone.mpr hng)
    · intro hpos
      rcases finalAcc_cases e p records with ⟨hb, h80, hsnd, hsome⟩ | ⟨hcond, hsnd, hnone⟩
      · exact hsome
      · rw [Option.isSome_iff_ne_none]
        intro hn
        exact absurd (hnone.mp hn) (not_le.mpr hpos)

/-- Claim C6: the candidate search is two-tier. When the parcel's normalized
id has indexed records whose best total reaches 80, the emitted candidate
carries (the rounding of) that bucket best; otherwise — no indexed candidate
or bucket best below 80 — the search widens to every record and the candidate
carries the best total over all records, no candidate being emitted exactly
when that global best is not positive. -/
theorem C6_two_tier_search (e : MatchingEngine) (p : Row) (records : List Row) :
    ((¬ (bucketOf p records).isEmpty = true ∧
        80 ≤ bestScoreOver e p 0 (bucketOf p records)) →
      (matchParcel e p records).map Candidate.total_score =
        some (round2 (bestScoreOver e p 0 (bucketOf p records)))) ∧
    (((bucketOf p records).isEmpty = true ∨
        bestScoreOver e p 0 (bucketOf p records) < 80) →
      (0 < bestScoreOver e p 0 records →
        (matchParcel e p records).map Candidate.total_score =
          some (round2 (bestScoreOver e p 0 records))) ∧
      (bestScoreOver e p 0 records ≤ 0 → matchParcel e p records = none)) := by
  constructor
  · rintro ⟨hb, h80⟩
    rcases finalAcc_cases e p records with ⟨-, -, hsnd, hsome⟩ | ⟨hcond, -, -⟩
    · rw [matchParcel_total_eq e p records hsome, hsnd]
    · rcases hcond with h | h
      · exact absurd h hb
      · exact absurd h (not_lt.mpr h80)
  · intro hcond2
    rcases finalAcc_cases e p records with ⟨hb, h80, -, -⟩ | ⟨-, hsnd, hnone⟩
    · rcases hcond2 with h | h
      · exact absurd h hb
      · exact absurd h80 (not_le.mpr h)
    · constructor
      · intro hpos
        have hsome : (finalAcc e p records).1.isSome = true := by
          rw [Option.isSome_iff_ne_none]
          intro hn
          exact absurd (hnone.mp hn) (not_le.mpr hpos)
        rw [matchParcel_total_eq e p records hsome, hsnd]
      · intro hle
        exact matchParcel_eq_none_of e p records (hnone.mpr hle)

/-- Witness for C6 on the scenario rows (bucket empty, so the search widens
and the candidate carries the rounded global best). -/
theorem C6_witness :
    (matchParcel defaultEngine parcelC2 [recordC2]).map Candidate.total_score =
      some (round2 (bestScoreOver defaultEngine parcelC2 0 [recordC2])) :=
  ((C6_two_tier_search defaultEngine parcelC2 [recordC2]).2 (Or.inl (by decide))).1 (by decide)

/-- Rounding half to even preserves nonnegativity. -/
lemma roundHalfEven_nonneg (x : ℚ) (h : 0 ≤ x) : 0 ≤ roundHalfEven x := by
  unfold roundHalfEven
  simp only []
  have hf : (0:ℤ) ≤ ⌊x⌋ := Int.floor_nonneg.mpr h
  split
  · exact hf
  · split
    · omega
    · split <;> omega

/-- round(x, 2) preserves nonnegativity. -/
lemma round2_nonneg (x : ℚ) (h : 0 ≤ x) : 0 ≤ round2 x := by
  unfold round2
  apply div_nonneg _ (by norm_num)
  exact_mod_cast roundHalfEven_nonneg (x * 100) (mul_nonneg h (by norm_num))

/-- Claim C10 (amended): every element returned by run_matching carries the
rounding of a strictly positive underlying best score — its record_id is the
id of an input textual record, and its total_score equals round2 of that
positive best, hence is nonnegative (rounding can report 0.0 for a best below
0.005, so the emitted total_score itself need not be strictly positive) — and
a parcel all of whose records score a total of at most 0 produces no output
element, because the best-candidate comparison is strict. -/
theorem C10_output_from_positive_best (e : MatchingEngine) (parcels records : List Row)
    (c : Candidate) (hc : c ∈ run_matching e parcels records) :
    (∃ r ∈ records, c.record_id = r.id) ∧
    (∃ q : ℚ, 0 < q ∧ c.total_score = round2 q ∧ 0 ≤ c.total_score) ∧
    (∀ p ∈ parcels, (∀ r ∈ records, totalOf e p r ≤ 0) → matchParcel e p records = none) := by
  unfold run_matching at hc
  obtain ⟨p, hp, hmp⟩ := List.mem_filterMap.mp hc
  have hg := finalAcc_good e p records
  have hthird : ∀ p2 ∈ parcels, (∀ r ∈ records, totalOf e p2 r ≤ 0) →
      matchParcel e p2 records = none := by
    intro p2 hp2 hall
    rcases finalAcc_cases e p2 records with ⟨hb, h80, hsnd, hsome⟩ | ⟨hcond, hsnd, hnone⟩
    · exfalso
      have h1 : bestScoreOver e p2 0 (bucketOf p2 records) ≤ 0 := by
        refine bestScoreOver_le e p2 0 0 _ (le_refl 0) ?_
        intro r hr
        exact hall r (mem_of_mem_bucketOf p2 records r hr)
      linarith
    · refine matchParcel_eq_none_of e p2 records (hnone.mpr ?_)
      exact bestScoreOver_le e p2 0 0 records (le_refl 0) hall
  refine ⟨?_, ?_, hthird⟩
  all_goals
    rcases hfa : finalAcc e p records with ⟨o, s⟩
    cases o with
    | none =>
      rw [matchParcel_eq_none_of e p records (by rw [hfa])] at hmp
      simp at hmp
    | some rm =>
      rcases rm with ⟨r, m⟩
      obtain ⟨hm, hms, hpos, hrmem⟩ := hg.2.2 r m (by rw [hfa])
      rw [hfa] at hpos
      simp only [] at hpos
      unfold matchParcel at hmp
      rw [hfa] at hmp
      simp only [Option.some.injEq] at hmp
      subst hmp
      first
        | exact ⟨r, hrmem, rfl⟩
        | exact ⟨s, hpos, rfl, round2_nonneg s hpos.le⟩

/-- Witness for C10 on the scenario output candidate. -/
theorem C10_witness :
    (∃ r ∈ [recordC2], (⟨1, 2, 87.65, 100, 92.16, 66.67⟩ : Candidate).record_id = r.id) ∧
    (∃ q : ℚ, 0 < q ∧ (⟨1, 2, 87.65, 100, 92.16, 66.67⟩ : Candidate).total_score = round2 q ∧
      0 ≤ (⟨1, 2, 87.65, 100, 92.16, 66.67⟩ : Candidate).total_score) ∧
    (∀ p ∈ [parcelC2], (∀ r ∈ [recordC2], totalOf defaultEngine p r ≤ 0) →
      matchParcel defaultEngine p [recordC2] = none) :=
  C10_output_from_positive_best defaultEngine [parcelC2] [recordC2]
    ⟨1, 2, 87.65, 100, 92.16, 66.67⟩ (by decide)

/-- Claim C4, counterexample: with a nonempty textual-record list a parcel can
still produce no MatchCandidate — with empty fields every score is 0 and the
strict best-candidate comparison never fires, so run_matching returns the
empty list although the record list is nonempty. -/
theorem C4_counterexample :
    run_matching defaultEngine [⟨1, [], [], 0⟩] [⟨2, [], [], 0⟩] = [] ∧
    ([⟨2, [], [], 0⟩] : List Row) ≠ [] := by decide

/-- Witness for C4: the scenario parcel does get a candidate, since its record
scores positively. -/
theorem C4_witness : (matchParcel defaultEngine parcelC2 [recordC2]).isSome = true :=
  (C4_one_candidate_iff_positive defaultEngine [parcelC2] [recordC2] parcelC2).2.2.mpr
    ⟨recordC2, by decide, by decide⟩

/-- Every character of the long plot id is "x" or "y". -/
lemma recordC10_chars : ∀ c ∈ (120 :: List.replicate 12000 121 : Str), c = 120 ∨ c = 121 := by
  intro c hc
  rcases List.mem_cons.mp hc with rfl | hr
  · left; rfl
  · right; exact List.eq_of_mem_replicate hr

/-- The long plot id normalizes to itself. -/
lemma normalize_id_C10 :
    normalize_id (120 :: List.replicate 12000 121) = 120 :: List.replicate 12000 121 := by
  have hws : ∀ c ∈ (120 :: List.replicate 12000 121 : Str), isWsM c = false := by
    intro c hc
    rcases recordC10_chars c hc with rfl | rfl <;> decide
  rw [normalize_id_eq_of_wsFree _ hws]
  rw [map_eq_self_of _ _ (by intro c hc; rcases recordC10_chars c hc with rfl | rfl <;> decide)]
  rw [List.filter_eq_self.mpr
    (by intro c hc; rcases recordC10_chars c hc with rfl | rfl <;> decide)]
  have hdig : pyIsDigit (120 :: List.replicate 12000 121 : Str) = false := by
    unfold pyIsDigit
    rw [List.all_cons, show isDigitM 120 = false from by decide, Bool.false_and]
    exact Bool.and_false _
  simp only [hdig, Bool.false_eq_true, if_false]

/-- The empty first string gives LCS 0 for any fuel. -/
lemma lcsAux_nil_left : ∀ (fuel : Nat) (l : Str), lcsAux fuel [] l = 0 := by
  intro fuel l
  cases fuel with
  | zero => rfl
  | succ n => rfl

/-- With enough fuel, the LCS against a single character counts whether it
occurs. -/
lemma lcsAux_singleton (c : Nat) : ∀ (fuel : Nat) (l : Str), l.length < fuel →
    lcsAux fuel [c] l = if c ∈ l then 1 else 0 := by
  intro fuel
  induction fuel with
  | zero => intro l h; omega
  | succ n ih =>
    intro l h
    cases l with
    | nil => simp [lcsAux]
    | cons b bs =>
      simp only [lcsAux]
      by_cases hc : c = b
      · subst hc
        rw [if_pos rfl, lcsAux_nil_left]
        simp [List.mem_cons]
      · rw [if_neg hc]
        have hlt : bs.length < n := by
          simp only [List.length_cons] at h
          omega
        rw [ih bs hlt, lcsAux_nil_left]
        simp [List.mem_cons, hc]

/-- The LCS of "x" with the long plot id is 1. -/
lemma lcsLen_C10 : lcsLen [120] (120 :: List.replicate 12000 121) = 1 := by
  unfold lcsLen
  rw [lcsAux_singleton]
  · rw [if_pos (List.mem_cons_self 120 (List.replicate 12000 121))]
  · rw [List.length_cons, List.length_cons, List.length_nil, List.length_replicate]
    omega

/-- fuzz.ratio of "x" against the long plot id: 200/12002 = 100/6001. -/
lemma fuzz_ratio_C10 : fuzz_ratio [120] (120 :: List.replicate 12000 121) = 100/6001 := by
  unfold fuzz_ratio indelDist
  rw [lcsLen_C10, List.length_cons, List.length_cons, List.length_nil, List.length_replicate]
  norm_num

/-- The id score of the counterexample pair. -/
lemma id_score_C10 : calculate_id_score [120] (120 :: List.replicate 12000 121) = 100/6001 := by
  unfold calculate_id_score
  rw [if_neg (by rintro (h | h) <;> exact List.cons_ne_nil _ _ h),
    if_neg (by
      intro h
      have h2 := congrArg List.length h
      rw [List.length_cons, List.length_cons, List.length_nil, List.length_replicate] at h2
      omega)]
  exact fuzz_ratio_C10

/-- The full score record of the counterexample pair: only the id contributes,
total 30/6001 ≈ 0.005. -/
lemma calculate_match_C10 : calculate_match defaultEngine parcelC10 recordC10 =
    ⟨0, 0, 100/6001, 30/6001⟩ := by
  unfold calculate_match
  simp only []
  rw [show normalize_name parcelC10.owner_name = [] from by decide,
    show normalize_name recordC10.owner_name = [] from by decide,
    show normalize_id parcelC10.plot_id = [120] from by decide,
    show normalize_id recordC10.plot_id = 120 :: List.replicate 12000 121 from normalize_id_C10,
    show calculate_name_score [] [] = 0 from by decide,
    id_score_C10,
    show calculate_area_score defaultEngine.area_tolerance parcelC10.area recordC10.area = 0
      from by decide]
  rw [if_neg (by decide), if_neg (by decide), if_neg (by decide)]
  have htot : WEIGHT_NAME * 0 + WEIGHT_AREA * 0 + WEIGHT_ID * (100/6001) = (30/6001 : ℚ) := by
    norm_num [WEIGHT_NAME, WEIGHT_AREA, WEIGHT_ID]
  rw [htot]

/-- The long plot id is not indexed under the parcel's plot id "x". -/
lemma bucketOf_C10 : bucketOf parcelC10 [recordC10] = [] := by
  unfold bucketOf
  have hne : (normalize_id recordC10.plot_id == normalize_id parcelC10.plot_id) = false := by
    rw [show normalize_id recordC10.plot_id = 120 :: List.replicate 12000 121
        from normalize_id_C10,
      show normalize_id parcelC10.plot_id = [120] from by decide]
    apply beq_eq_false_iff_ne.mpr
    intro h
    have h2 := congrArg List.length h
    rw [List.length_cons, List.length_cons, List.length_nil, List.length_replicate] at h2
    omega
  simp only [List.filter_cons, List.filter_nil, hne, Bool.false_eq_true, if_false]

/-- The loop state of the counterexample run: bucket empty, so the fallback
scan over the single record picks it up with best score 30/6001. -/
lemma finalAcc_C10 : finalAcc defaultEngine parcelC10 [recordC10] =
    (some (recordC10, ⟨0, 0, 100/6001, 30/6001⟩), 30/6001) := by
  unfold finalAcc
  simp only []
  rw [bucketOf_C10]
  rw [if_pos (show ([] : List Row).isEmpty = true from rfl)]
  rw [if_pos (show (((none : Option (Row × MatchScores)), (0:ℚ)).1.isNone ||
    decide (((none : Option (Row × MatchScores)), (0:ℚ)).2 < 80)) = true from by decide)]
  rw [bestFold_cons, calculate_match_C10,
    if_pos (show ((none : Option (Row × MatchScores)), (0:ℚ)).2 <
      (⟨0, 0, 100/6001, 30/6001⟩ : MatchScores).total_score from by decide)]
  rfl

/-- The counterexample pair yields a match whose rounded total is 0.0. -/
lemma matchParcel_C10 : matchParcel defaultEngine parcelC10 [recordC10] = some candidateC10 := by
  unfold matchParcel
  rw [finalAcc_C10]
  decide

/-- Claim C10, counterexample: run_matching can return an element whose
total_score is 0.0 — the underlying best score 0.3·fuzz.ratio("x", "xy…y") =
30/6001 ≈ 0.005 is strictly positive but rounds to 0.00 — refuting "every
element returned by run_matching has total_score strictly greater than 0". -/
theorem C10_counterexample :
    run_matching defaultEngine [parcelC10] [recordC10] = [candidateC10] ∧
    ¬ 0 < candidateC10.total_score := by
  constructor
  · unfold run_matching
    simp only [List.filterMap_cons, List.filterMap_nil, matchParcel_C10]
  · decide

example : normalize_id (pyStr "P-007") = pyStr "p007" := by decide
example : normalize_id (pyStr "p7") = pyStr "p7" := by decide
example : normalize_name (pyStr "Ramesh Kumar") = pyStr "ramesh kumar" := by decide
example : normalize_name (pyStr "mr mr a") = pyStr "mr a" := by decide
example : normalize_name (pyStr "mr a") = pyStr "a" := by decide
example : normalize_id (pyStr "0 1") = pyStr "01" := by decide
example : normalize_id (pyStr "01") = pyStr "1" := by decide
example : lcsLen (pyStr "p007") (pyStr "p7") = 2 := by decide
example : fuzz_ratio (pyStr "p007") (pyStr "p7") = 200/3 := by decide
example : round2 (200/3) = 66.67 := by decide
example : calculate_area_score 5 2500 2550 = 4700/51 := by decide
example : round2 (4700/51) = 92.16 := by decide
example : calculate_area_score 5 (-10) (-20) = 500 := by decide
example : round2 (1490/17) = 87.65 := by decide

example :
    run_matching defaultEngine [⟨1, pyStr "P-007", pyStr "Ramesh Kumar", 2500⟩]
      [⟨2, pyStr "p7", pyStr "ramesh kumar", 2550⟩] =
    [⟨1, 2, 87.65, 100, 92.16, 66.67⟩] := by decide

example : classify 87.65 = (.matched, .high) := by decide

example :
    verify_match ⟨.rejected, some 5, some 1, some (pyStr "bad")⟩ (pyStr "verified") none 7 2 =
    .ok ⟨.verified, some 7, some 2, some (pyStr "bad")⟩ := by decide

end LandSync
